import Mathlib

/-!
# Jump-rope counter firmware (`src/main.cpp`): embedding and properties

The firmware keeps all of its data in global variables.  Here the globals are
the fields of `State`, every function of `main.cpp` that takes part in a
decision is a function on `State`, and what the firmware sends to the display,
the serial port and the vibration motor is returned as a list of `Effect`s.

* `unsigned long` values are natural numbers, subtraction is taken modulo `2^32`.
* `int` values are integers; the increment of an `int` wraps at 32 bits.
* `float` values are elements of a type `F` with the operations of `FloatOps`.
  Two interpretations are given: exact rational arithmetic (`ℚ`) and IEEE-754
  binary32 with round-to-nearest-even (`F32`).
* An array access outside the array is undefined behaviour in C++; the
  functions that index arrays return `none` in that case.
-/

namespace JumpRope

/-! ## The `float` operations used by the firmware -/

/-- Operations on C++ `float` values that `main.cpp` uses. -/
class FloatOps (F : Type) where
  /-- Value of the decimal literal `m * 10^(-e)` converted to `float`
  (`1.5` is `lit 15 1`). -/
  lit : Int → Nat → F
  /-- Conversion `int → float`. -/
  ofInt : Int → F
  /-- Addition `a + b`. -/
  add : F → F → F
  /-- Subtraction `a - b`. -/
  sub : F → F → F
  /-- Division `a / b`. -/
  div : F → F → F
  /-- Unary minus. -/
  neg : F → F
  /-- Comparison `a < b` (`a > b` is `lt b a`). -/
  lt : F → F → Bool
  /-- The expression `x - c` for the `double` literal `c = m * 10^(-e)`: the subtraction
  is carried out in `double` and the result is converted back to `float`. -/
  subDouble : F → Int → Nat → F

/-- Exact arithmetic: every operation is the rational one, without rounding. -/
instance exactArith : FloatOps ℚ where
  lit m e := (m : ℚ) / 10 ^ e
  ofInt n := (n : ℚ)
  add a b := a + b
  sub a b := a - b
  div a b := a / b
  neg a := -a
  lt a b := decide (a < b)
  subDouble x m e := x - (m : ℚ) / 10 ^ e

/-! ## Constants and globals (`main.cpp` lines 28–45, 104) -/

/-- Line 29: `const float JUMP_THRESHOLD = 1.5`. -/
def JUMP_THRESHOLD {F : Type} [FloatOps F] : F := FloatOps.lit 15 1

/-- Line 30: `const unsigned long DEBOUNCE_TIME = 500`. -/
def DEBOUNCE_TIME : Nat := 500

/-- Line 33: `const int JUMP_THRESHOLD_COUNT = 5`. -/
def JUMP_THRESHOLD_COUNT : Int := 5

/-- Line 39: `const long ENV_UPDATE_INTERVAL = 2000`. -/
def ENV_UPDATE_INTERVAL : Int := 2000

/-- Line 41: `const int MOVING_AVERAGE_SIZE = 5`. -/
def MOVING_AVERAGE_SIZE : Int := 5

/-- Least value of a 32-bit `int`. -/
def INT_MIN : Int := -2147483648

/-- Greatest value of a 32-bit `int`. -/
def INT_MAX : Int := 2147483647

/-- The 32-bit `int` that holds the result `x` of an `int` operation: `x` itself when it is
in range, else `x` reduced modulo `2^32` into the range (two's complement; at `INT_MAX` the
increment `jumpCounter++` gives `INT_MIN`). -/
def wrapInt (x : Int) : Int := (x + 2147483648) % 4294967296 - 2147483648

/-- Number of values of a 32-bit `unsigned long`. -/
def ULONG_RANGE : Nat := 4294967296

/-- Subtraction of two `unsigned long` values: the difference modulo `2^32`. -/
def usub (a b : Nat) : Nat :=
  (a % ULONG_RANGE + ULONG_RANGE - b % ULONG_RANGE) % ULONG_RANGE

/-- Conversion of a `long` to `unsigned long` (in `currentMillis - last >= ENV_UPDATE_INTERVAL`
the right-hand side is converted to the unsigned type). -/
def toULong (x : Int) : Nat := (x % (ULONG_RANGE : Int)).toNat

/-- The global variables of `main.cpp`. -/
structure State (F : Type) where
  /-- Line 31. -/
  lastJumpTime : Nat
  /-- Line 32. -/
  jumpCounter : Int
  /-- Line 36. -/
  accelXOffset : F
  /-- Line 36. -/
  accelYOffset : F
  /-- Line 36. -/
  accelZOffset : F
  /-- Line 40. -/
  lastEnvUpdateTime : Nat
  /-- Line 43: `float tempReadings[MOVING_AVERAGE_SIZE]`. -/
  tempReadings : Fin 5 → F
  /-- Line 44: `float humidityReadings[MOVING_AVERAGE_SIZE]`. -/
  humidityReadings : Fin 5 → F
  /-- Line 45. -/
  readingIndex : Int
  /-- Line 104. -/
  jumpDetected : Bool

/-- The float literal `0.0` (also the initial value `0` of a `float`). -/
def fzero {F : Type} [FloatOps F] : F := FloatOps.lit 0 1

/-- The globals as initialised at lines 31–45 and 104. -/
def initState {F : Type} [FloatOps F] : State F where
  lastJumpTime := 0
  jumpCounter := 0
  accelXOffset := fzero
  accelYOffset := fzero
  accelZOffset := fzero
  lastEnvUpdateTime := 0
  tempReadings := fun _ => fzero
  humidityReadings := fun _ => fzero
  readingIndex := 0
  jumpDetected := false

/-- What the firmware does to the outside world. -/
inductive Effect (F : Type) where
  /-- Lines 126–127: the serial line `Jump detected! Total jumps: n`. -/
  | serialJump (n : Int)
  /-- A call `displayJumpCount(n)`. -/
  | displayJumpCount (n : Int)
  /-- A call `triggerVibration()`. -/
  | triggerVibration
  /-- A call `updateEnvironmentalData(temp, hum)`. -/
  | updateEnvironmentalData (temp hum : F)
  /-- Lines 148–152: the serial line with the two averages. -/
  | serialEnv (temp hum : F)

/-- The event `JumpCompleted` of the specification: the report of a confirmed jump. -/
def Effect.isJumpCompleted {F : Type} : Effect F → Bool
  | .serialJump _ => true
  | _ => false

/-- The event `GoalReached` of the specification: the actuator is triggered. -/
def Effect.isGoalReached {F : Type} : Effect F → Bool
  | .triggerVibration => true
  | _ => false

/-! ## Jump detection (`loop`, lines 117–137) -/

/-- Line 117: `currentMillis - lastJumpTime > DEBOUNCE_TIME`. -/
def debounceGuard (currentMillis lastJumpTime : Nat) : Bool :=
  decide (usub currentMillis lastJumpTime > DEBOUNCE_TIME)

/-- Line 140: `currentMillis - lastEnvUpdateTime >= ENV_UPDATE_INTERVAL`. -/
def envGate (currentMillis lastEnvUpdateTime : Nat) : Bool :=
  decide (usub currentMillis lastEnvUpdateTime ≥ toULong ENV_UPDATE_INTERVAL)

/-- Lines 117–137 of `loop`: the jump-detection step on one sample. -/
def detectJump {F : Type} [FloatOps F] (s : State F) (currentMillis : Nat) (calibratedZ : F) :
    State F × List (Effect F) :=
  if debounceGuard currentMillis s.lastJumpTime then
    if !s.jumpDetected && FloatOps.lt JUMP_THRESHOLD calibratedZ then
      ({ s with jumpDetected := true }, [])
    else if s.jumpDetected && FloatOps.lt calibratedZ (FloatOps.neg JUMP_THRESHOLD) then
      let jc := wrapInt (s.jumpCounter + 1)
      let s1 := { s with jumpCounter := jc, jumpDetected := false, lastJumpTime := currentMillis }
      if jc ≥ JUMP_THRESHOLD_COUNT then
        ({ s1 with jumpCounter := 0 },
          [.serialJump jc, .displayJumpCount jc, .triggerVibration, .displayJumpCount 0])
      else
        (s1, [.serialJump jc, .displayJumpCount jc])
    else (s, [])
  else (s, [])

/-! ## Environmental smoothing (lines 140–154, 175–190) -/

/-- Lines 175–181: `updateReadingsArray`.  `none` when `readingIndex` is outside the arrays. -/
def updateReadingsArray {F : Type} (s : State F) (newTemperature newHumidity : F) :
    Option (State F) :=
  if h : 0 ≤ s.readingIndex ∧ s.readingIndex < 5 then
    let i : Fin 5 := ⟨s.readingIndex.toNat, by omega⟩
    some { s with
      tempReadings := Function.update s.tempReadings i newTemperature
      humidityReadings := Function.update s.humidityReadings i newHumidity
      readingIndex := Int.tmod (s.readingIndex + 1) MOVING_AVERAGE_SIZE }
  else none

/-- The loop of lines 186–188: `count` more iterations starting at index `i` with running
total `sum`.  `none` when an index falls outside `readings`. -/
def sumLoop {F : Type} [FloatOps F] (readings : List F) : Nat → Nat → F → Option F
  | 0, _, sum => some sum
  | count + 1, i, sum =>
    match readings.get? i with
    | none => none
    | some r => sumLoop readings count (i + 1) (FloatOps.add sum r)

/-- Lines 184–190: `calculateMovingAverage(readings, size)`. -/
def calculateMovingAverage {F : Type} [FloatOps F] (readings : List F) (size : Int) : Option F :=
  match sumLoop readings size.toNat 0 fzero with
  | none => none
  | some sum => some (FloatOps.div sum (FloatOps.ofInt size))

/-- Lines 142–144 of `loop`: one update of the smoother with a new pair of readings; returns
the new globals with `avgTemp` and `avgHumidity`. -/
def smootherUpdate {F : Type} [FloatOps F] (s : State F) (temp hum : F) :
    Option (State F × F × F) :=
  match updateReadingsArray s temp hum with
  | none => none
  | some s1 =>
    match calculateMovingAverage (List.ofFn s1.tempReadings) MOVING_AVERAGE_SIZE,
          calculateMovingAverage (List.ofFn s1.humidityReadings) MOVING_AVERAGE_SIZE with
    | some avgTemp, some avgHumidity => some (s1, avgTemp, avgHumidity)
    | _, _ => none

/-! ## The polling loop (lines 106–155) -/

/-- What one iteration of `loop` reads from the outside. -/
structure Input (F : Type) where
  /-- Line 107: `millis()`. -/
  currentMillis : Nat
  /-- Line 111: `a.acceleration.z`. -/
  accelZ : F
  /-- Line 142: `bme.readTemperature()`. -/
  temperature : F
  /-- Line 142: `bme.readHumidity()`. -/
  humidity : F

/-- Lines 106–155: one iteration of `loop`. -/
def loop {F : Type} [FloatOps F] (s : State F) (inp : Input F) :
    Option (State F × List (Effect F)) :=
  let calibratedZ := FloatOps.sub inp.accelZ s.accelZOffset
  let r := detectJump s inp.currentMillis calibratedZ
  if envGate inp.currentMillis r.1.lastEnvUpdateTime then
    match smootherUpdate { r.1 with lastEnvUpdateTime := inp.currentMillis }
        inp.temperature inp.humidity with
    | none => none
    | some (s2, avgTemp, avgHumidity) =>
      some (s2, r.2 ++ [.updateEnvironmentalData avgTemp avgHumidity,
                        .serialEnv avgTemp avgHumidity])
  else some r

/-- The firmware run on a sequence of inputs: `loop` once per input, effects in order. -/
def run {F : Type} [FloatOps F] : State F → List (Input F) → Option (State F × List (Effect F))
  | s, [] => some (s, [])
  | s, inp :: rest =>
    match loop s inp with
    | none => none
    | some (s1, es1) =>
      match run s1 rest with
      | none => none
      | some (s2, es2) => some (s2, es1 ++ es2)

/-! ## Calibration (lines 157–173) -/

/-- One reading `a.acceleration` of the accelerometer. -/
structure Accel (F : Type) where
  /-- Field `a.acceleration.x`. -/
  x : F
  /-- Field `a.acceleration.y`. -/
  y : F
  /-- Field `a.acceleration.z`. -/
  z : F

/-- The loop of lines 161–168: `count` more iterations starting at iteration `i`, where
`read i` is what `mpu.getEvent` delivers in iteration `i`; the triple is `(sumX, sumY, sumZ)`. -/
def calibrationLoop {F : Type} [FloatOps F] (read : Nat → Accel F) :
    Nat → Nat → F × F × F → F × F × F
  | 0, _, sums => sums
  | count + 1, i, (sumX, sumY, sumZ) =>
    calibrationLoop read count (i + 1)
      (FloatOps.add sumX (read i).x, FloatOps.add sumY (read i).y, FloatOps.add sumZ (read i).z)

/-- Lines 157–173: `calibrateMPU6050`. -/
def calibrateMPU6050 {F : Type} [FloatOps F] (s : State F) (read : Nat → Accel F) : State F :=
  let numReadings : Int := 100
  let sums := calibrationLoop read numReadings.toNat 0
    (FloatOps.ofInt 0, FloatOps.ofInt 0, FloatOps.ofInt 0)
  { s with
    accelXOffset := FloatOps.div sums.1 (FloatOps.ofInt numReadings)
    accelYOffset := FloatOps.div sums.2.1 (FloatOps.ofInt numReadings)
    accelZOffset := FloatOps.subDouble (FloatOps.div sums.2.2 (FloatOps.ofInt numReadings)) 981 2 }

/-! ## Sequences of steps -/

/-- The jump-detection step on a sequence of samples `(currentMillis, calibratedZ)`. -/
def detectJumps {F : Type} [FloatOps F] : State F → List (Nat × F) → State F × List (Effect F)
  | s, [] => (s, [])
  | s, (t, z) :: rest =>
    let r := detectJump s t z
    let r2 := detectJumps r.1 rest
    (r2.1, r.2 ++ r2.2)

/-- A sequence of calls of `updateReadingsArray`. -/
def updateReadingsSeq {F : Type} : State F → List (F × F) → Option (State F)
  | s, [] => some s
  | s, (t, h) :: rest =>
    match updateReadingsArray s t h with
    | none => none
    | some s1 => updateReadingsSeq s1 rest

/-- A sequence of smoother updates; returns the final globals and the pair of averages of
every update, in order. -/
def smootherUpdates {F : Type} [FloatOps F] :
    State F → List (F × F) → Option (State F × List (F × F))
  | s, [] => some (s, [])
  | s, (t, h) :: rest =>
    match smootherUpdate s t h with
    | none => none
    | some (s1, avgT, avgH) =>
      match smootherUpdates s1 rest with
      | none => none
      | some (s2, avgs) => some (s2, (avgT, avgH) :: avgs)

/-- The confirming transition of line 120 fires on this input: `jumpDetected` holds, the
calibrated z is below `-JUMP_THRESHOLD` and the debounce guard holds. -/
def confirms {F : Type} [FloatOps F] (s : State F) (inp : Input F) : Bool :=
  s.jumpDetected
    && FloatOps.lt (FloatOps.sub inp.accelZ s.accelZOffset) (FloatOps.neg JUMP_THRESHOLD)
    && debounceGuard inp.currentMillis s.lastJumpTime

/-- Number of inputs of a run on which the confirming transition fires. -/
def confirmCount {F : Type} [FloatOps F] : State F → List (Input F) → Nat
  | _, [] => 0
  | s, inp :: rest =>
    (if confirms s inp then 1 else 0) +
      (match loop s inp with
       | none => 0
       | some (s1, _) => confirmCount s1 rest)

/-- Number of `GoalReached` events (calls of `triggerVibration`) in a list of effects. -/
def goalCount {F : Type} (es : List (Effect F)) : Nat := es.countP Effect.isGoalReached

/-- Number of `JumpCompleted` events in a list of effects. -/
def jumpCompletedCount {F : Type} (es : List (Effect F)) : Nat := es.countP Effect.isJumpCompleted

/-! ## IEEE-754 binary32 (`float`) -/

/-- A binary32 value.  `fin neg m` is the finite number `(-1)^neg * m * 2^(-149)`: every
finite binary32 number is a multiple of the smallest subnormal `2^(-149)`. -/
inductive F32 where
  /-- A finite number (with signed zero). -/
  | fin (neg : Bool) (m : Nat)
  /-- An infinity. -/
  | inf (neg : Bool)
  /-- Not a number. -/
  | nan
  deriving DecidableEq, Repr

/-- Number of binary digits of `n` (`fuel` bounds the number of digits looked at). -/
def bitLength : Nat → Nat → Nat
  | 0, _ => 0
  | fuel + 1, n => if n = 0 then 0 else bitLength fuel (n / 2) + 1

/-- The multiple of the unit with at most `prec` significant binary digits that is nearest
to `n / d`, ties to the even significand (`d > 0`). -/
def roundNearestEven (prec n d : Nat) : Nat :=
  let sh := bitLength (n / d) (n / d) - prec
  let q := n / (d * 2 ^ sh)
  let r := n % (d * 2 ^ sh)
  if 2 * r > d * 2 ^ sh ∨ (2 * r = d * 2 ^ sh ∧ q % 2 = 1) then (q + 1) * 2 ^ sh
  else q * 2 ^ sh

namespace F32

/-- `2^128` in units of `2^(-149)`: the least magnitude that is too large for binary32. -/
def LIMIT : Nat := 2 ^ 128 * 2 ^ 149

/-- The value with sign `neg` and rounded magnitude `mag`: infinite on overflow. -/
def ofMag (neg : Bool) (mag : Nat) : F32 :=
  if mag < LIMIT then .fin neg mag else .inf neg

/-- The integer `(-1)^neg * m`. -/
def signed (neg : Bool) (m : Nat) : Int := if neg then -(m : Int) else (m : Int)

/-- Decimal literal `m * 10^(-e)`, rounded to binary32. -/
def lit (m : Int) (e : Nat) : F32 :=
  ofMag (decide (m < 0)) (roundNearestEven 24 (m.natAbs * 2 ^ 149) (10 ^ e))

/-- Conversion of an `int`. -/
def ofInt (n : Int) : F32 :=
  ofMag (decide (n < 0)) (roundNearestEven 24 (n.natAbs * 2 ^ 149) 1)

/-- Addition, rounded to nearest even. -/
def add : F32 → F32 → F32
  | .nan, _ => .nan
  | _, .nan => .nan
  | .inf a, .inf b => if a = b then .inf a else .nan
  | .inf a, .fin _ _ => .inf a
  | .fin _ _, .inf b => .inf b
  | .fin a m, .fin b n =>
    let s : Int := signed a m + signed b n
    if s = 0 then .fin (a && b) 0
    else ofMag (decide (s < 0)) (roundNearestEven 24 s.natAbs 1)

/-- Unary minus. -/
def neg : F32 → F32
  | .fin a m => .fin (!a) m
  | .inf a => .inf (!a)
  | .nan => .nan

/-- Subtraction, rounded to nearest even. -/
def sub (x y : F32) : F32 := add x (neg y)

/-- Division, rounded to nearest even. -/
def div : F32 → F32 → F32
  | .nan, _ => .nan
  | _, .nan => .nan
  | .inf _, .inf _ => .nan
  | .inf a, .fin b _ => .inf (a != b)
  | .fin a _, .inf b => .fin (a != b) 0
  | .fin a m, .fin b n =>
    if n = 0 then (if m = 0 then .nan else .inf (a != b))
    else ofMag (a != b) (roundNearestEven 24 (m * 2 ^ 149) n)

/-- Comparison `x < y`. -/
def lt : F32 → F32 → Bool
  | .nan, _ => false
  | _, .nan => false
  | .inf a, .inf b => a && !b
  | .inf a, .fin _ _ => a
  | .fin _ _, .inf b => !b
  | .fin a m, .fin b n => decide (signed a m < signed b n)

/-- The `double` literal `m * 10^(-e)` in units of `2^(-1074)`, and whether it overflows. -/
def doubleLit (m : Int) (e : Nat) : Nat := roundNearestEven 53 (m.natAbs * 2 ^ 1074) (10 ^ e)

/-- `2^1024` in units of `2^(-1074)`: the least magnitude that is too large for `double`. -/
def DOUBLE_LIMIT : Nat := 2 ^ 1024 * 2 ^ 1074

/-- The expression `x - c` with the `double` literal `c = m * 10^(-e)`: `x` is widened to
`double`, the difference is rounded to `double` and then narrowed to binary32. -/
def subDouble (x : F32) (m : Int) (e : Nat) : F32 :=
  match x with
  | .nan => .nan
  | .inf a => if DOUBLE_LIMIT ≤ doubleLit m e ∧ a = decide (m < 0) then .nan else .inf a
  | .fin a k =>
    if DOUBLE_LIMIT ≤ doubleLit m e then .inf (!decide (m < 0))
    else
      let d : Int := signed a (k * 2 ^ 925) - signed (decide (m < 0)) (doubleLit m e)
      if d = 0 then .fin (a && !decide (m < 0)) 0
      else ofMag (decide (d < 0)) (roundNearestEven 24 (roundNearestEven 53 d.natAbs 1) (2 ^ 925))

end F32

/-- IEEE-754 binary32 arithmetic, round to nearest even. -/
instance binary32 : FloatOps F32 where
  lit := F32.lit
  ofInt := F32.ofInt
  add := F32.add
  sub := F32.sub
  div := F32.div
  neg := F32.neg
  lt := F32.lt
  subDouble := F32.subDouble

/-- What lines 185–189 compute for a full 5-slot array: the slots are added to `0.0` in
index order and the total is divided by the converted size. -/
def average5 {F : Type} [FloatOps F] (f : Fin 5 → F) : F :=
  FloatOps.div
    (FloatOps.add (FloatOps.add (FloatOps.add (FloatOps.add (FloatOps.add fzero (f 0)) (f 1))
      (f 2)) (f 3)) (f 4))
    (FloatOps.ofInt 5)

/-- The counter and the ring-buffer index are in range: `0 <= jumpCounter < 5` and
`0 <= readingIndex < 5`. -/
def InRange {F : Type} (s : State F) : Prop :=
  (0 ≤ s.jumpCounter ∧ s.jumpCounter < 5) ∧ (0 ≤ s.readingIndex ∧ s.readingIndex < 5)

/-- The array `f` after the assignment `f[idx] = v`, for an index inside the array. -/
def writeSlot {F : Type} (f : Fin 5 → F) (idx : Int) (v : F) : Fin 5 → F :=
  fun j => if (j.val : Int) = idx then v else f j

/-- The globals after `updateReadingsArray(t, h)` when `readingIndex` is inside the arrays. -/
def afterUpdate {F : Type} (s : State F) (t h : F) : State F :=
  { s with
    tempReadings := writeSlot s.tempReadings s.readingIndex t
    humidityReadings := writeSlot s.humidityReadings s.readingIndex h
    readingIndex := (s.readingIndex + 1) % 5 }

/-- The pairs of averages after each of a sequence of updates that starts with
`readingIndex` inside the arrays. -/
def averagesAfter {F : Type} [FloatOps F] : State F → List (F × F) → List (F × F)
  | _, [] => []
  | s, (t, h) :: rest =>
    (average5 (afterUpdate s t h).tempReadings, average5 (afterUpdate s t h).humidityReadings)
      :: averagesAfter (afterUpdate s t h) rest

/-- Both buffers hold `0.0` in every slot and the write index is 0. -/
def Fresh {F : Type} [FloatOps F] (s : State F) : Prop :=
  s.tempReadings = (fun _ => fzero) ∧ s.humidityReadings = (fun _ => fzero) ∧ s.readingIndex = 0

/-- The running total of lines 185–188 over the values `ts`: they are added to `0.0` in
order. -/
def runningTotal {F : Type} [FloatOps F] (ts : List F) : F := ts.foldl FloatOps.add fzero

/-- Lines 54–102: `setup`.  The only globals it changes are the calibration offsets
(`calibrateMPU6050` at line 66); `read` is what the accelerometer delivers meanwhile. -/
def setup {F : Type} [FloatOps F] (read : Nat → Accel F) : State F :=
  calibrateMPU6050 initState read

/-- A state of exact arithmetic with four confirmed jumps on the counter, waiting for a rise. -/
def fourJumps : State ℚ := { (initState : State ℚ) with jumpCounter := 4 }

/-- An accelerometer that reads `0.0` on every axis during calibration. -/
def restRead : Nat → Accel F32 := fun _ => ⟨fzero, fzero, fzero⟩

/-- An input at `t` ms with `a.acceleration.z = 0.0` (and 20.0 °C, 50.0 %). -/
def riseAt (t : Nat) : Input F32 :=
  { currentMillis := t, accelZ := FloatOps.lit 0 1,
    temperature := FloatOps.lit 200 1, humidity := FloatOps.lit 500 1 }

/-- An input at `t` ms with `a.acceleration.z = -20.0` (and 20.0 °C, 50.0 %). -/
def fallAt (t : Nat) : Input F32 :=
  { currentMillis := t, accelZ := FloatOps.lit (-200) 1,
    temperature := FloatOps.lit 200 1, humidity := FloatOps.lit 500 1 }

/-- Six rise/fall pairs, one input every 600 ms. -/
def sixJumps : List (Input F32) :=
  [riseAt 600, fallAt 1200, riseAt 1800, fallAt 2400, riseAt 3000, fallAt 3600,
   riseAt 4200, fallAt 4800, riseAt 5400, fallAt 6000, riseAt 6600, fallAt 7200]

/-! ## Properties of the time gates -/

theorem usub_add_mod (L e : Nat) (hL : L < ULONG_RANGE) (he : e < ULONG_RANGE) :
    usub ((L + e) % ULONG_RANGE) L = e := by
  unfold usub ULONG_RANGE at *
  omega

/-- C8: with 32-bit timestamps, a stored timestamp `L` and a true elapsed time `e < 2^32`,
at `now = (L + e) mod 2^32` the debounce guard holds exactly when `e > 500` and the
environmental gate exactly when `e >= 2000`, also when the clock has wrapped (`now < L`). -/
theorem time_gates_wraparound_safe (L e : Nat) (hL : L < ULONG_RANGE) (he : e < ULONG_RANGE) :
    (debounceGuard ((L + e) % ULONG_RANGE) L = true ↔ e > 500) ∧
    (envGate ((L + e) % ULONG_RANGE) L = true ↔ e ≥ 2000) := by
  have h := usub_add_mod L e hL he
  have h2 : toULong ENV_UPDATE_INTERVAL = 2000 := by decide
  simp [debounceGuard, envGate, h, h2, DEBOUNCE_TIME]

theorem time_gates_wraparound_safe_witness :
    ((4294967000 + 600) % ULONG_RANGE < 4294967000) ∧
    (debounceGuard ((4294967000 + 600) % ULONG_RANGE) 4294967000 = true ↔ 600 > 500) ∧
    (envGate ((4294967000 + 600) % ULONG_RANGE) 4294967000 = true ↔ 600 ≥ 2000) :=
  ⟨by decide, time_gates_wraparound_safe 4294967000 600 (by decide) (by decide)⟩

/-! ## Properties of jump detection -/

section Detect

variable {F : Type} [FloatOps F]

theorem detectJump_blocked (s : State F) (now : Nat) (z : F)
    (h : debounceGuard now s.lastJumpTime = false) : detectJump s now z = (s, []) := by
  simp [detectJump, h]

theorem debounceGuard_false_of_le {now last : Nat} (h : usub now last ≤ DEBOUNCE_TIME) :
    debounceGuard now last = false := by
  simp [debounceGuard]; omega

theorem debounceGuard_true_of_gt {now last : Nat} (h : usub now last > DEBOUNCE_TIME) :
    debounceGuard now last = true := by
  simp [debounceGuard]; omega

theorem detectJumps_blocked (s : State F) (samples : List (Nat × F))
    (h : ∀ p ∈ samples, usub p.1 s.lastJumpTime ≤ DEBOUNCE_TIME) :
    detectJumps s samples = (s, []) := by
  induction samples with
  | nil => rfl
  | cons p rest ih =>
    obtain ⟨t, z⟩ := p
    have h1 : detectJump s t z = (s, []) :=
      detectJump_blocked s t z (debounceGuard_false_of_le (h (t, z) (by simp)))
    have h2 := ih (fun q hq => h q (by simp [hq]))
    simp [detectJumps, h1, h2]

/-- The rise: an idle detector that sees `z > JUMP_THRESHOLD` outside the debounce window
only sets `jumpDetected`. -/
theorem detectJump_rise (s : State F) (now : Nat) (z : F)
    (hidle : s.jumpDetected = false) (hz : FloatOps.lt JUMP_THRESHOLD z = true)
    (hdeb : debounceGuard now s.lastJumpTime = true) :
    detectJump s now z = ({ s with jumpDetected := true }, []) := by
  simp [detectJump, hidle, hz, hdeb]

/-- An `int` increment that does not overflow is the mathematical one. -/
theorem wrapInt_succ {c : Int} (hr : INT_MIN ≤ c ∧ c < INT_MAX) : wrapInt (c + 1) = c + 1 := by
  unfold INT_MIN INT_MAX at hr
  unfold wrapInt
  omega

/-- The confirming transition below the goal. -/
theorem detectJump_confirm_below (s : State F) (now : Nat) (z : F)
    (hrising : s.jumpDetected = true)
    (hz : FloatOps.lt z (FloatOps.neg JUMP_THRESHOLD) = true)
    (hdeb : debounceGuard now s.lastJumpTime = true)
    (hr : INT_MIN ≤ s.jumpCounter ∧ s.jumpCounter < INT_MAX)
    (hc : s.jumpCounter + 1 < JUMP_THRESHOLD_COUNT) :
    detectJump s now z =
      ({ s with jumpCounter := s.jumpCounter + 1, jumpDetected := false, lastJumpTime := now },
        [.serialJump (s.jumpCounter + 1), .displayJumpCount (s.jumpCounter + 1)]) := by
  have hc2 : ¬ (JUMP_THRESHOLD_COUNT ≤ s.jumpCounter + 1) := by omega
  simp [detectJump, hrising, hz, hdeb, hc2, wrapInt_succ hr]

/-- The confirming transition that reaches the goal. -/
theorem detectJump_confirm_goal (s : State F) (now : Nat) (z : F)
    (hrising : s.jumpDetected = true)
    (hz : FloatOps.lt z (FloatOps.neg JUMP_THRESHOLD) = true)
    (hdeb : debounceGuard now s.lastJumpTime = true)
    (hr : INT_MIN ≤ s.jumpCounter ∧ s.jumpCounter < INT_MAX)
    (hc : JUMP_THRESHOLD_COUNT ≤ s.jumpCounter + 1) :
    detectJump s now z =
      ({ s with jumpCounter := 0, jumpDetected := false, lastJumpTime := now },
        [.serialJump (s.jumpCounter + 1), .displayJumpCount (s.jumpCounter + 1),
          .triggerVibration, .displayJumpCount 0]) := by
  simp [detectJump, hrising, hz, hdeb, hc, wrapInt_succ hr]

end Detect

section DetectClaims

variable {F : Type} [FloatOps F]

/-- C1 (as amended): from an idle detector with counter `c`, `INT_MIN <= c < INT_MAX` (so
that `c + 1` is an `int`), a sample with `z1 > 1.5` followed by a sample with `z2 < -1.5`,
both outside the debounce window, emit no event on the first sample and exactly one
`JumpCompleted` on the second; the counter ends at `c + 1` when `c + 1 < 5`, and at `0` with
one `GoalReached` when `c + 1 >= 5`. -/
theorem jump_confirmation (s : State F) (t1 t2 : Nat) (z1 z2 : F)
    (hidle : s.jumpDetected = false)
    (hr : INT_MIN ≤ s.jumpCounter ∧ s.jumpCounter < INT_MAX)
    (hz1 : FloatOps.lt JUMP_THRESHOLD z1 = true)
    (hz2 : FloatOps.lt z2 (FloatOps.neg JUMP_THRESHOLD) = true)
    (ht1 : usub t1 s.lastJumpTime > DEBOUNCE_TIME)
    (ht2 : usub t2 s.lastJumpTime > DEBOUNCE_TIME) :
    (detectJump s t1 z1).2 = [] ∧
    jumpCompletedCount (detectJump (detectJump s t1 z1).1 t2 z2).2 = 1 ∧
    (s.jumpCounter + 1 < JUMP_THRESHOLD_COUNT →
      (detectJump (detectJump s t1 z1).1 t2 z2).1.jumpCounter = s.jumpCounter + 1 ∧
      goalCount (detectJump (detectJump s t1 z1).1 t2 z2).2 = 0) ∧
    (JUMP_THRESHOLD_COUNT ≤ s.jumpCounter + 1 →
      (detectJump (detectJump s t1 z1).1 t2 z2).1.jumpCounter = 0 ∧
      goalCount (detectJump (detectJump s t1 z1).1 t2 z2).2 = 1) := by
  have h1 := detectJump_rise s t1 z1 hidle hz1 (debounceGuard_true_of_gt ht1)
  have hb := detectJump_confirm_below { s with jumpDetected := true } t2 z2 rfl hz2
    (debounceGuard_true_of_gt ht2) hr
  have hg := detectJump_confirm_goal { s with jumpDetected := true } t2 z2 rfl hz2
    (debounceGuard_true_of_gt ht2) hr
  rw [h1]
  dsimp only at hb hg ⊢
  refine ⟨rfl, ?_, ?_, ?_⟩
  · by_cases hc : s.jumpCounter + 1 < JUMP_THRESHOLD_COUNT
    · rw [hb hc]
      simp [jumpCompletedCount, Effect.isJumpCompleted]
    · rw [hg (by simpa using hc)]
      simp [jumpCompletedCount, Effect.isJumpCompleted]
  · intro hc
    rw [hb hc]
    simp [goalCount, Effect.isGoalReached]
  · intro hc
    rw [hg hc]
    simp [goalCount, Effect.isGoalReached]

/-- C2: a sample that arrives with `now - lastJumpTime <= 500` leaves the whole state (so
`jumpDetected`, `jumpCounter` and `lastJumpTime`) unchanged and emits nothing, whatever `z`
is; the same holds for any further samples that all arrive within the window, so a second
rise/fall crossing inside the window leaves the counter unchanged. -/
theorem debounce_ignores_samples (s : State F) (now : Nat) (z : F)
    (h : usub now s.lastJumpTime ≤ DEBOUNCE_TIME) :
    detectJump s now z = (s, []) ∧
    ∀ rest : List (Nat × F), (∀ p ∈ rest, usub p.1 s.lastJumpTime ≤ DEBOUNCE_TIME) →
      detectJumps s ((now, z) :: rest) = (s, []) := by
  refine ⟨detectJump_blocked s now z (debounceGuard_false_of_le h), ?_⟩
  intro rest hrest
  apply detectJumps_blocked
  intro p hp
  rcases List.mem_cons.mp hp with rfl | hp
  · exact h
  · exact hrest p hp

end DetectClaims

/-! ### Concrete instances in exact arithmetic -/

theorem exact_lt_iff (a b : ℚ) : FloatOps.lt a b = true ↔ a < b := by
  simp [FloatOps.lt]

theorem exact_threshold : (JUMP_THRESHOLD : ℚ) = 3 / 2 := by
  simp [JUMP_THRESHOLD, FloatOps.lit]; norm_num

theorem exact_neg (a : ℚ) : FloatOps.neg a = -a := rfl

theorem jump_confirmation_witness :
    (detectJump initState 501 (2 : ℚ)).2 = [] ∧
    jumpCompletedCount (detectJump (detectJump initState 501 (2 : ℚ)).1 502 (-2 : ℚ)).2 = 1 ∧
    ((initState : State ℚ).jumpCounter + 1 < JUMP_THRESHOLD_COUNT →
      (detectJump (detectJump initState 501 (2 : ℚ)).1 502 (-2 : ℚ)).1.jumpCounter
        = (initState : State ℚ).jumpCounter + 1 ∧
      goalCount (detectJump (detectJump initState 501 (2 : ℚ)).1 502 (-2 : ℚ)).2 = 0) ∧
    (JUMP_THRESHOLD_COUNT ≤ (initState : State ℚ).jumpCounter + 1 →
      (detectJump (detectJump initState 501 (2 : ℚ)).1 502 (-2 : ℚ)).1.jumpCounter = 0 ∧
      goalCount (detectJump (detectJump initState 501 (2 : ℚ)).1 502 (-2 : ℚ)).2 = 1) :=
  jump_confirmation initState 501 502 2 (-2) rfl (by decide)
    (by rw [exact_lt_iff, exact_threshold]; norm_num)
    (by rw [exact_lt_iff, exact_neg, exact_threshold]; norm_num)
    (by decide) (by decide)

/-- C1 fails as stated: with the counter at 4, an idle detector, `z1 = 2 > 1.5` at 501 ms and
`z2 = -2 < -1.5` at 502 ms (last jump at 0 ms), the counter ends at 0, not at 4 + 1. -/
theorem jump_confirmation_counterexample :
    fourJumps.jumpDetected = false ∧ fourJumps.jumpCounter = 4 ∧
    FloatOps.lt JUMP_THRESHOLD (2 : ℚ) = true ∧
    FloatOps.lt (-2 : ℚ) (FloatOps.neg JUMP_THRESHOLD) = true ∧
    usub 501 fourJumps.lastJumpTime > DEBOUNCE_TIME ∧
    usub 502 fourJumps.lastJumpTime > DEBOUNCE_TIME ∧
    (detectJump (detectJump fourJumps 501 2).1 502 (-2)).1.jumpCounter = 0 ∧
    (detectJump (detectJump fourJumps 501 2).1 502 (-2)).1.jumpCounter
      ≠ fourJumps.jumpCounter + 1 := by
  have hz1 : FloatOps.lt JUMP_THRESHOLD (2 : ℚ) = true := by
    rw [exact_lt_iff, exact_threshold]; norm_num
  have hz2 : FloatOps.lt (-2 : ℚ) (FloatOps.neg JUMP_THRESHOLD) = true := by
    rw [exact_lt_iff, exact_neg, exact_threshold]; norm_num
  have ht1 : usub 501 fourJumps.lastJumpTime > DEBOUNCE_TIME := by decide
  have ht2 : usub 502 fourJumps.lastJumpTime > DEBOUNCE_TIME := by decide
  have h1 := detectJump_rise fourJumps 501 2 rfl hz1 (debounceGuard_true_of_gt ht1)
  have h2 := detectJump_confirm_goal (detectJump fourJumps 501 2).1 502 (-2)
    (by rw [h1]) hz2 (by rw [h1]; exact debounceGuard_true_of_gt ht2) (by rw [h1]; decide)
    (by rw [h1]; decide)
  refine ⟨rfl, rfl, hz1, hz2, ht1, ht2, ?_, ?_⟩
  · rw [h2]
  · rw [h2]; decide

theorem debounce_ignores_samples_witness :
    usub 300 (initState : State ℚ).lastJumpTime ≤ DEBOUNCE_TIME ∧
    (detectJump initState 300 (2 : ℚ) = (initState, []) ∧
    ∀ rest : List (Nat × ℚ),
      (∀ p ∈ rest, usub p.1 (initState : State ℚ).lastJumpTime ≤ DEBOUNCE_TIME) →
      detectJumps initState ((300, 2) :: rest) = (initState, [])) :=
  ⟨by decide, debounce_ignores_samples initState 300 2 (by decide)⟩

/-! ## The smoother and the whole loop -/

section Loop

variable {F : Type} [FloatOps F]

theorem calculateMovingAverage_ofFn (f : Fin 5 → F) :
    calculateMovingAverage (List.ofFn f) MOVING_AVERAGE_SIZE = some (average5 f) := by
  simp [calculateMovingAverage, MOVING_AVERAGE_SIZE, sumLoop, List.ofFn_succ]
  rfl

theorem updateReadingsArray_eq {G : Type} (s : State G) (t h : G)
    (hi : 0 ≤ s.readingIndex ∧ s.readingIndex < 5) :
    updateReadingsArray s t h = some { s with
      tempReadings := Function.update s.tempReadings ⟨s.readingIndex.toNat, by omega⟩ t
      humidityReadings := Function.update s.humidityReadings ⟨s.readingIndex.toNat, by omega⟩ h
      readingIndex := (s.readingIndex + 1) % 5 } := by
  have h5 : Int.tmod (s.readingIndex + 1) MOVING_AVERAGE_SIZE = (s.readingIndex + 1) % 5 := by
    rw [MOVING_AVERAGE_SIZE, Int.tmod_eq_emod (by omega) (by decide)]
  simp [updateReadingsArray, hi, h5]

theorem smootherUpdate_eq (s : State F) (t h : F)
    (hi : 0 ≤ s.readingIndex ∧ s.readingIndex < 5) :
    smootherUpdate s t h = some
      ({ s with
          tempReadings := Function.update s.tempReadings ⟨s.readingIndex.toNat, by omega⟩ t
          humidityReadings :=
            Function.update s.humidityReadings ⟨s.readingIndex.toNat, by omega⟩ h
          readingIndex := (s.readingIndex + 1) % 5 },
        average5 (Function.update s.tempReadings ⟨s.readingIndex.toNat, by omega⟩ t),
        average5 (Function.update s.humidityReadings ⟨s.readingIndex.toNat, by omega⟩ h)) := by
  simp only [smootherUpdate, updateReadingsArray_eq s t h hi, calculateMovingAverage_ofFn]

/-- The jump-detection step touches only `jumpCounter`, `jumpDetected` and `lastJumpTime`. -/
theorem detectJump_frame (s : State F) (now : Nat) (z : F) :
    (detectJump s now z).1.readingIndex = s.readingIndex ∧
    (detectJump s now z).1.accelZOffset = s.accelZOffset ∧
    (detectJump s now z).1.lastEnvUpdateTime = s.lastEnvUpdateTime ∧
    (detectJump s now z).1.tempReadings = s.tempReadings ∧
    (detectJump s now z).1.humidityReadings = s.humidityReadings := by
  simp only [detectJump]
  split_ifs <;> simp

/-- A smoother update from a state with its index in range returns and touches only the two
buffers and the index. -/
theorem smootherUpdate_frame (s : State F) (t h : F)
    (hi : 0 ≤ s.readingIndex ∧ s.readingIndex < 5) :
    ∃ s1 avgT avgH, smootherUpdate s t h = some (s1, avgT, avgH) ∧
      s1.jumpCounter = s.jumpCounter ∧ s1.jumpDetected = s.jumpDetected ∧
      s1.lastJumpTime = s.lastJumpTime ∧ s1.accelZOffset = s.accelZOffset ∧
      s1.lastEnvUpdateTime = s.lastEnvUpdateTime ∧
      s1.readingIndex = (s.readingIndex + 1) % 5 :=
  ⟨_, _, _, smootherUpdate_eq s t h hi, rfl, rfl, rfl, rfl, rfl, rfl⟩

/-- One iteration of `loop` from a state with the ring-buffer index in range: it returns, its
jump fields and jump events are those of the jump-detection step, and the index stays in
range. -/
theorem loop_spec (s : State F) (inp : Input F)
    (hi : 0 ≤ s.readingIndex ∧ s.readingIndex < 5) :
    ∃ s1 env, loop s inp = some (s1,
        (detectJump s inp.currentMillis (FloatOps.sub inp.accelZ s.accelZOffset)).2 ++ env) ∧
      s1.jumpCounter =
        (detectJump s inp.currentMillis (FloatOps.sub inp.accelZ s.accelZOffset)).1.jumpCounter ∧
      s1.jumpDetected =
        (detectJump s inp.currentMillis (FloatOps.sub inp.accelZ s.accelZOffset)).1.jumpDetected ∧
      s1.lastJumpTime =
        (detectJump s inp.currentMillis (FloatOps.sub inp.accelZ s.accelZOffset)).1.lastJumpTime ∧
      s1.accelZOffset = s.accelZOffset ∧
      (0 ≤ s1.readingIndex ∧ s1.readingIndex < 5) ∧
      goalCount env = 0 ∧ jumpCompletedCount env = 0 := by
  obtain ⟨f1, f2, -, -, -⟩ :=
    detectJump_frame s inp.currentMillis (FloatOps.sub inp.accelZ s.accelZOffset)
  by_cases hg : envGate inp.currentMillis
      (detectJump s inp.currentMillis (FloatOps.sub inp.accelZ s.accelZOffset)).1.lastEnvUpdateTime
      = true
  · obtain ⟨s1, avgT, avgH, hs, g1, g2, g3, g4, -, g6⟩ :=
      smootherUpdate_frame
        { (detectJump s inp.currentMillis (FloatOps.sub inp.accelZ s.accelZOffset)).1 with
          lastEnvUpdateTime := inp.currentMillis }
        inp.temperature inp.humidity (by dsimp only; rw [f1]; exact hi)
    dsimp only at g1 g2 g3 g4 g6
    refine ⟨s1, [.updateEnvironmentalData avgT avgH, .serialEnv avgT avgH],
      ?_, g1, g2, g3, g4.trans f2, ?_, ?_, ?_⟩
    · simp only [loop, hg, if_true, hs]
    · rw [g6, f1]; omega
    · simp [goalCount, Effect.isGoalReached]
    · simp [jumpCompletedCount, Effect.isJumpCompleted]
  · refine ⟨_, [], ?_, rfl, rfl, rfl, f2, ?_, ?_, ?_⟩
    · simp [loop, hg]
    · rw [f1]; exact hi
    · simp [goalCount]
    · simp [jumpCompletedCount]

end Loop

/-! ## Accounting of jumps over a run -/

section Accounting

variable {F : Type} [FloatOps F]

/-- When the confirming transition does not fire, the jump-detection step leaves the counter
alone and reports neither a jump nor the goal. -/
theorem detectJump_not_confirming (s : State F) (now : Nat) (z : F)
    (h : (s.jumpDetected && FloatOps.lt z (FloatOps.neg JUMP_THRESHOLD)
      && debounceGuard now s.lastJumpTime) = false) :
    (detectJump s now z).1.jumpCounter = s.jumpCounter ∧
    goalCount (detectJump s now z).2 = 0 ∧
    jumpCompletedCount (detectJump s now z).2 = 0 := by
  simp only [detectJump]
  split_ifs with h1 h2 h3 h4
  · simp [goalCount, jumpCompletedCount]
  · simp [h1, h3] at h
  · simp [h1, h3] at h
  · simp [goalCount, jumpCompletedCount]
  · simp [goalCount, jumpCompletedCount]

/-- When the confirming transition fires with the counter in range, the counter advances
modulo 5 and the goal is reported exactly when it wraps. -/
theorem detectJump_confirming (s : State F) (now : Nat) (z : F)
    (hc : 0 ≤ s.jumpCounter ∧ s.jumpCounter < 5)
    (h : (s.jumpDetected && FloatOps.lt z (FloatOps.neg JUMP_THRESHOLD)
      && debounceGuard now s.lastJumpTime) = true) :
    (detectJump s now z).1.jumpCounter = (s.jumpCounter + 1) % 5 ∧
    (goalCount (detectJump s now z).2 : Int) = (s.jumpCounter + 1) / 5 := by
  simp only [Bool.and_eq_true] at h
  obtain ⟨⟨hr, hz⟩, hd⟩ := h
  by_cases hg : JUMP_THRESHOLD_COUNT ≤ s.jumpCounter + 1
  · rw [detectJump_confirm_goal s now z hr hz hd
      (by unfold INT_MIN INT_MAX; omega) hg]
    have : s.jumpCounter = 4 := by unfold JUMP_THRESHOLD_COUNT at hg; omega
    simp [goalCount, Effect.isGoalReached, this]
  · have hb : s.jumpCounter + 1 < JUMP_THRESHOLD_COUNT := by omega
    rw [detectJump_confirm_below s now z hr hz hd (by unfold INT_MIN INT_MAX; omega) hb]
    unfold JUMP_THRESHOLD_COUNT at hb
    simp only [goalCount, Effect.isGoalReached, List.countP_cons_of_neg, List.countP_nil,
      Bool.false_eq_true, not_false_eq_true, Nat.cast_zero]
    omega

/-- Accounting from any state in range: the run returns, stays in range, the counter ends at
`(c + n) mod 5` and the number of goal events is `(c + n) div 5`, where `c` is the counter at
the start and `n` the number of inputs on which the confirming transition fires. -/
theorem run_accounting (inputs : List (Input F)) (s : State F) (hs : InRange s) :
    ∃ s1 es, run s inputs = some (s1, es) ∧ InRange s1 ∧
      s1.jumpCounter = (s.jumpCounter + (confirmCount s inputs : Int)) % 5 ∧
      (goalCount es : Int) = (s.jumpCounter + (confirmCount s inputs : Int)) / 5 := by
  induction inputs generalizing s with
  | nil =>
    refine ⟨s, [], rfl, hs, ?_, ?_⟩
    · have := hs.1; simp [confirmCount]; omega
    · have := hs.1; simp [confirmCount, goalCount]; omega
  | cons inp rest ih =>
    obtain ⟨s1, env, hl, hcnt, -, -, -, hidx, hgenv, -⟩ := loop_spec s inp hs.2
    have hstep : s1.jumpCounter = (s.jumpCounter + (if confirms s inp then 1 else 0 : Int)) % 5 ∧
        (goalCount ((detectJump s inp.currentMillis
          (FloatOps.sub inp.accelZ s.accelZOffset)).2 ++ env) : Int)
          = (s.jumpCounter + (if confirms s inp then 1 else 0 : Int)) / 5 := by
      have hgc : goalCount ((detectJump s inp.currentMillis
          (FloatOps.sub inp.accelZ s.accelZOffset)).2 ++ env)
          = goalCount (detectJump s inp.currentMillis
            (FloatOps.sub inp.accelZ s.accelZOffset)).2 := by
        simp only [goalCount, List.countP_append] at hgenv ⊢
        omega
      rw [hgc, hcnt]
      by_cases hc : confirms s inp = true
      · have := detectJump_confirming s inp.currentMillis
          (FloatOps.sub inp.accelZ s.accelZOffset) hs.1 hc
        simp only [hc, if_true]
        exact this
      · have hc2 : confirms s inp = false := by simpa using hc
        have := detectJump_not_confirming s inp.currentMillis
          (FloatOps.sub inp.accelZ s.accelZOffset) hc2
        have hr := hs.1
        simp only [hc2, Bool.false_eq_true, if_false, this.1, this.2.1]
        constructor
        · omega
        · simp only [Nat.cast_zero]; omega
    have hr1 : InRange s1 := by
      refine ⟨?_, hidx⟩
      rw [hstep.1]; omega
    obtain ⟨s2, es2, hrun, hr2, hc2, hg2⟩ := ih s1 hr1
    refine ⟨s2, ((detectJump s inp.currentMillis
      (FloatOps.sub inp.accelZ s.accelZOffset)).2 ++ env) ++ es2, ?_, hr2, ?_, ?_⟩
    · simp only [run, hl, hrun]
    · rw [hc2, hstep.1]
      simp only [confirmCount, hl]
      split_ifs <;> push_cast <;> omega
    · have happ : goalCount (((detectJump s inp.currentMillis
          (FloatOps.sub inp.accelZ s.accelZOffset)).2 ++ env) ++ es2)
          = goalCount ((detectJump s inp.currentMillis
            (FloatOps.sub inp.accelZ s.accelZOffset)).2 ++ env) + goalCount es2 := by
        simp only [goalCount, List.countP_append]
      rw [happ]
      push_cast
      rw [hg2, hstep.2, hstep.1]
      simp only [confirmCount, hl]
      have hr := hs.1
      split_ifs <;> push_cast <;> omega

theorem setup_inRange (read : Nat → Accel F) : InRange (setup read) := by
  simp [InRange, setup, calibrateMPU6050, initState]

theorem setup_jumpCounter (read : Nat → Accel F) : (setup read).jumpCounter = 0 := rfl

end Accounting

section RunClaims

variable {F : Type} [FloatOps F]

/-- C4: from the boot state (the globals as initialised, after `setup`), on every sequence of
inputs every iteration of `loop` returns and the state after the last one has
`0 <= jumpCounter < JUMP_THRESHOLD_COUNT`; the sequence is arbitrary, so this holds after
every iteration. -/
theorem counter_range_invariant (read : Nat → Accel F) (inputs : List (Input F)) :
    ∃ s es, run (setup read) inputs = some (s, es) ∧
      0 ≤ s.jumpCounter ∧ s.jumpCounter < JUMP_THRESHOLD_COUNT := by
  obtain ⟨s, es, hrun, hr, -, -⟩ := run_accounting inputs (setup read) (setup_inRange read)
  exact ⟨s, es, hrun, hr.1.1, by unfold JUMP_THRESHOLD_COUNT; exact hr.1.2⟩

/-- C10: on every finite sequence of inputs from the boot state, with `n` the number of inputs
on which the confirming transition fires, the run returns with `jumpCounter = n mod 5` and
with `n div 5` calls of `triggerVibration`; and on an input of the run on which the
confirming transition does not fire, `loop` leaves the counter unchanged. -/
theorem jump_accounting (read : Nat → Accel F) (inputs : List (Input F)) :
    ∃ s es, run (setup read) inputs = some (s, es) ∧
      s.jumpCounter = ((confirmCount (setup read) inputs % 5 : Nat) : Int) ∧
      goalCount es = confirmCount (setup read) inputs / 5 ∧
      ∀ (pre : List (Input F)) (inp : Input F) (post : List (Input F)),
        inputs = pre ++ inp :: post →
        ∃ s0 es0 s1 es1, run (setup read) pre = some (s0, es0) ∧
          loop s0 inp = some (s1, es1) ∧
          (confirms s0 inp = false → s1.jumpCounter = s0.jumpCounter) := by
  obtain ⟨s, es, hrun, -, hc, hg⟩ := run_accounting inputs (setup read) (setup_inRange read)
  rw [setup_jumpCounter] at hc hg
  refine ⟨s, es, hrun, ?_, ?_, ?_⟩
  · rw [hc]; push_cast; omega
  · omega
  · intro pre inp post _
    obtain ⟨s0, es0, hpre, hr0, -, -⟩ := run_accounting pre (setup read) (setup_inRange read)
    obtain ⟨s1, env, hl, hcnt, -, -, -, -, -, -⟩ := loop_spec s0 inp hr0.2
    refine ⟨s0, es0, s1, _, hpre, hl, ?_⟩
    intro hnc
    rw [hcnt]
    exact (detectJump_not_confirming s0 inp.currentMillis
      (FloatOps.sub inp.accelZ s0.accelZOffset) hnc).1

/-- C3 (as amended): on every run from the boot state the counter is the number of jumps
confirmed since the last reset (`n mod 5` for `n` confirming transitions); when the next input
is a confirming crossing, `loop` calls `triggerVibration` once and resets the counter to 0 if
exactly 4 jumps have been confirmed since the last reset, and otherwise calls it not at all
and increments the counter. -/
theorem goal_event_on_fifth_jump (read : Nat → Accel F) (inputs : List (Input F))
    (inp : Input F) :
    ∃ s es s1 es1, run (setup read) inputs = some (s, es) ∧
      s.jumpCounter = ((confirmCount (setup read) inputs % 5 : Nat) : Int) ∧
      loop s inp = some (s1, es1) ∧
      (confirms s inp = true → s.jumpCounter = 4 →
        goalCount es1 = 1 ∧ s1.jumpCounter = 0) ∧
      (confirms s inp = true → s.jumpCounter ≠ 4 →
        goalCount es1 = 0 ∧ s1.jumpCounter = s.jumpCounter + 1) := by
  obtain ⟨s, es, hrun, hr, hc, -⟩ := run_accounting inputs (setup read) (setup_inRange read)
  rw [setup_jumpCounter] at hc
  obtain ⟨s1, env, hl, hcnt, -, -, -, -, hgenv, -⟩ := loop_spec s inp hr.2
  have hgc : goalCount ((detectJump s inp.currentMillis
      (FloatOps.sub inp.accelZ s.accelZOffset)).2 ++ env)
      = goalCount (detectJump s inp.currentMillis
        (FloatOps.sub inp.accelZ s.accelZOffset)).2 := by
    simp only [goalCount, List.countP_append] at hgenv ⊢
    omega
  have hrange := hr.1
  refine ⟨s, es, s1, _, hrun, ?_, hl, ?_, ?_⟩
  · rw [hc]; push_cast; omega
  · intro hconf h4
    obtain ⟨k1, k2⟩ := detectJump_confirming s inp.currentMillis
      (FloatOps.sub inp.accelZ s.accelZOffset) hr.1 hconf
    rw [hgc, hcnt, k1]
    rw [h4] at k2 ⊢
    constructor
    · have : ((goalCount (detectJump s inp.currentMillis
          (FloatOps.sub inp.accelZ s.accelZOffset)).2 : Nat) : Int) = 1 := by
        rw [k2]; decide
      exact_mod_cast this
    · decide
  · intro hconf h4
    obtain ⟨k1, k2⟩ := detectJump_confirming s inp.currentMillis
      (FloatOps.sub inp.accelZ s.accelZOffset) hr.1 hconf
    rw [hgc, hcnt, k1]
    constructor
    · have : ((goalCount (detectJump s inp.currentMillis
          (FloatOps.sub inp.accelZ s.accelZOffset)).2 : Nat) : Int) = 0 := by
        rw [k2]; omega
      exact_mod_cast this
    · omega

end RunClaims

set_option maxRecDepth 1000000 in
/-- The amended C3 at a run that meets both of its conditions: after the first nine inputs of
`sixJumps` the counter is 4 and the tenth input is a confirming crossing. -/
theorem goal_event_on_fifth_jump_witness :
    (run (setup restRead) (sixJumps.take 9)).map
        (fun r => (r.1.jumpCounter, confirms r.1 (fallAt 6000))) = some (4, true) ∧
    ∃ s es s1 es1, run (setup restRead) (sixJumps.take 9) = some (s, es) ∧
      s.jumpCounter = ((confirmCount (setup restRead) (sixJumps.take 9) % 5 : Nat) : Int) ∧
      loop s (fallAt 6000) = some (s1, es1) ∧
      (confirms s (fallAt 6000) = true → s.jumpCounter = 4 →
        goalCount es1 = 1 ∧ s1.jumpCounter = 0) ∧
      (confirms s (fallAt 6000) = true → s.jumpCounter ≠ 4 →
        goalCount es1 = 0 ∧ s1.jumpCounter = s.jumpCounter + 1) :=
  ⟨by decide, goal_event_on_fifth_jump restRead (sixJumps.take 9) (fallAt 6000)⟩

set_option maxRecDepth 1000000 in
/-- C3 fails as stated: from boot (zero calibration readings, so `accelZOffset = -9.81`), the
first ten inputs of `sixJumps` confirm exactly 5 jumps; the goal fired on the fifth of them
and the counter is back at 0.  The next confirming crossing (the twelfth input) calls
`triggerVibration` not at all and leaves the counter at 1, not 0. -/
theorem goal_event_counterexample :
    confirmCount (setup restRead) (sixJumps.take 10) = 5 ∧
    (run (setup restRead) (sixJumps.take 10)).map
        (fun r => (r.1.jumpCounter, goalCount r.2)) = some (0, 1) ∧
    (run (setup restRead) (sixJumps.take 11)).map
        (fun r => (r.1.jumpCounter, goalCount r.2, confirms r.1 (fallAt 7200)))
      = some (0, 1, true) ∧
    ((run (setup restRead) (sixJumps.take 11)).bind (fun r => loop r.1 (fallAt 7200))).map
        (fun r => (r.1.jumpCounter, goalCount r.2)) = some (1, 0) ∧
    confirmCount (setup restRead) sixJumps = 6 ∧
    (run (setup restRead) sixJumps).map
        (fun r => (r.1.jumpCounter, goalCount r.2)) = some (1, 1) := by
  decide


/-! ## The ring buffer -/

theorem updateReadingsSeq_index {G : Type} (calls : List (G × G)) (s : State G)
    (hi : 0 ≤ s.readingIndex ∧ s.readingIndex < 5) :
    ∃ s1, updateReadingsSeq s calls = some s1 ∧
      s1.readingIndex = (s.readingIndex + (calls.length : Int)) % 5 := by
  induction calls generalizing s with
  | nil => exact ⟨s, rfl, by simp; omega⟩
  | cons c rest ih =>
    obtain ⟨t, h⟩ := c
    have hu := updateReadingsArray_eq s t h hi
    obtain ⟨s1, hs1, hidx⟩ := ih
      { s with
        tempReadings := Function.update s.tempReadings ⟨s.readingIndex.toNat, by omega⟩ t
        humidityReadings := Function.update s.humidityReadings ⟨s.readingIndex.toNat, by omega⟩ h
        readingIndex := (s.readingIndex + 1) % 5 }
      (by dsimp only; omega)
    dsimp only at hidx
    refine ⟨s1, ?_, ?_⟩
    · simp only [updateReadingsSeq, hu]
      exact hs1
    · rw [hidx]
      simp only [List.length_cons]
      push_cast
      omega

/-- C9: starting from `readingIndex = 0`, every sequence of calls of `updateReadingsArray`
returns (no write is out of bounds) and after `n` calls `readingIndex = n mod 5`, which lies
in `[0, 5)`; the next call writes the two new values at that index of `tempReadings` and
`humidityReadings` and leaves the other four slots of each buffer unchanged. -/
theorem ring_buffer_index_safe {G : Type} (s0 : State G) (h0 : s0.readingIndex = 0)
    (calls : List (G × G)) :
    ∃ s, updateReadingsSeq s0 calls = some s ∧
      s.readingIndex = ((calls.length % 5 : Nat) : Int) ∧
      (0 ≤ s.readingIndex ∧ s.readingIndex < 5) ∧
      ∀ t h : G, ∃ (i : Fin 5) (s1 : State G),
        (i.val : Int) = s.readingIndex ∧
        updateReadingsArray s t h = some s1 ∧
        s1.tempReadings i = t ∧ s1.humidityReadings i = h ∧
        ∀ j : Fin 5, j ≠ i →
          s1.tempReadings j = s.tempReadings j ∧
          s1.humidityReadings j = s.humidityReadings j := by
  obtain ⟨s, hs, hidx⟩ := updateReadingsSeq_index calls s0 (by rw [h0]; decide)
  rw [h0] at hidx
  have hr : 0 ≤ s.readingIndex ∧ s.readingIndex < 5 := by omega
  refine ⟨s, hs, ?_, hr, ?_⟩
  · rw [hidx]; push_cast; omega
  · intro t h
    refine ⟨⟨s.readingIndex.toNat, by omega⟩, _, ?_, updateReadingsArray_eq s t h hr, ?_, ?_, ?_⟩
    · simp only; omega
    · simp
    · simp
    · intro j hj
      simp [Function.update_noteq hj]

theorem ring_buffer_index_safe_witness :
    ∃ s, updateReadingsSeq (initState : State ℚ) [(20, 50), (21, 51)] = some s ∧
      s.readingIndex = ((([(20, 50), (21, 51)] : List (ℚ × ℚ)).length % 5 : Nat) : Int) ∧
      (0 ≤ s.readingIndex ∧ s.readingIndex < 5) ∧
      ∀ t h : ℚ, ∃ (i : Fin 5) (s1 : State ℚ),
        (i.val : Int) = s.readingIndex ∧
        updateReadingsArray s t h = some s1 ∧
        s1.tempReadings i = t ∧ s1.humidityReadings i = h ∧
        ∀ j : Fin 5, j ≠ i →
          s1.tempReadings j = s.tempReadings j ∧
          s1.humidityReadings j = s.humidityReadings j :=
  ring_buffer_index_safe initState rfl [(20, 50), (21, 51)]

/-! ## Calibration in exact arithmetic -/

theorem calibrationLoop_exact (read : Nat → Accel ℚ) (count i : Nat) (a b c : ℚ) :
    calibrationLoop read count i (a, b, c) =
      (a + ∑ j in Finset.range count, (read (i + j)).x,
       b + ∑ j in Finset.range count, (read (i + j)).y,
       c + ∑ j in Finset.range count, (read (i + j)).z) := by
  induction count generalizing i a b c with
  | zero => simp [calibrationLoop]
  | succ n ih =>
    simp only [calibrationLoop, ih, Finset.sum_range_succ', FloatOps.add]
    refine Prod.ext ?_ (Prod.ext ?_ ?_)
    · simp only [Nat.add_zero]
      rw [add_assoc, add_comm ((read i).x)]
      congr 2
      apply Finset.sum_congr rfl
      intro j _
      congr 2; omega
    · simp only [Nat.add_zero]
      rw [add_assoc, add_comm ((read i).y)]
      congr 2
      apply Finset.sum_congr rfl
      intro j _
      congr 2; omega
    · simp only [Nat.add_zero]
      rw [add_assoc, add_comm ((read i).z)]
      congr 2
      apply Finset.sum_congr rfl
      intro j _
      congr 2; omega

/-- C5: in exact arithmetic, for every sequence of 100 accelerometer readings, the offsets
stored by `calibrateMPU6050` are the arithmetic means of `x` and of `y`, and the mean of `z`
minus 9.81. -/
theorem calibration_offsets_exact (s : State ℚ) (read : Nat → Accel ℚ) :
    (calibrateMPU6050 s read).accelXOffset = (∑ i in Finset.range 100, (read i).x) / 100 ∧
    (calibrateMPU6050 s read).accelYOffset = (∑ i in Finset.range 100, (read i).y) / 100 ∧
    (calibrateMPU6050 s read).accelZOffset
      = (∑ i in Finset.range 100, (read i).z) / 100 - 981 / 100 := by
  have h100 : Int.toNat 100 = 100 := rfl
  simp only [calibrateMPU6050, calibrationLoop_exact, FloatOps.ofInt, FloatOps.div,
    FloatOps.subDouble, h100]
  norm_num

/-! ## The smoother in exact arithmetic and in binary32 -/

section Smoother

variable {F : Type} [FloatOps F]

theorem update_eq_writeSlot {G : Type} (f : Fin 5 → G) (idx : Int) (h : 0 ≤ idx ∧ idx < 5)
    (v : G) : Function.update f ⟨idx.toNat, by omega⟩ v = writeSlot f idx v := by
  funext j
  by_cases hj : (j.val : Int) = idx
  · have : j = ⟨idx.toNat, by omega⟩ := by
      apply Fin.ext; simp only; omega
    rw [show writeSlot f idx v j = v from by simp [writeSlot, hj], this, Function.update_same]
  · have : j ≠ ⟨idx.toNat, by omega⟩ := by
      intro hc; apply hj; rw [hc]; simp only; omega
    simp [writeSlot, hj, Function.update_noteq this]

theorem smootherUpdate_eq_afterUpdate (s : State F) (t h : F)
    (hi : 0 ≤ s.readingIndex ∧ s.readingIndex < 5) :
    smootherUpdate s t h = some (afterUpdate s t h,
      average5 (afterUpdate s t h).tempReadings,
      average5 (afterUpdate s t h).humidityReadings) := by
  rw [smootherUpdate_eq s t h hi]
  simp only [afterUpdate, update_eq_writeSlot _ _ hi]

theorem afterUpdate_index {G : Type} (s : State G) (t h : G) :
    0 ≤ (afterUpdate s t h).readingIndex ∧ (afterUpdate s t h).readingIndex < 5 := by
  simp only [afterUpdate]; omega

theorem smootherUpdates_eq (inputs : List (F × F)) (s : State F)
    (hi : 0 ≤ s.readingIndex ∧ s.readingIndex < 5) :
    smootherUpdates s inputs
      = some (inputs.foldl (fun st p => afterUpdate st p.1 p.2) s, averagesAfter s inputs) := by
  induction inputs generalizing s with
  | nil => rfl
  | cons p rest ih =>
    obtain ⟨t, h⟩ := p
    simp only [smootherUpdates, smootherUpdate_eq_afterUpdate s t h hi,
      ih _ (afterUpdate_index s t h), List.foldl_cons, averagesAfter]

theorem averagesAfter_length (inputs : List (F × F)) (s : State F) :
    (averagesAfter s inputs).length = inputs.length := by
  induction inputs generalizing s with
  | nil => rfl
  | cons p rest ih => obtain ⟨t, h⟩ := p; simp [averagesAfter, ih]

/-- Five consecutive writes of the same value, starting at any index in range, fill the
whole array. -/
theorem five_writes_fill {G : Type} (f : Fin 5 → G) (idx : Int) (hi : 0 ≤ idx ∧ idx < 5)
    (v : G) :
    writeSlot (writeSlot (writeSlot (writeSlot (writeSlot f idx v) ((idx + 1) % 5) v)
      (((idx + 1) % 5 + 1) % 5) v) ((((idx + 1) % 5 + 1) % 5 + 1) % 5) v)
      (((((idx + 1) % 5 + 1) % 5 + 1) % 5 + 1) % 5) v = fun _ => v := by
  funext j
  have := j.isLt
  simp only [writeSlot]
  split_ifs <;> first | rfl | omega

end Smoother

theorem exact_average5 (f : Fin 5 → ℚ) :
    average5 f = (f 0 + f 1 + f 2 + f 3 + f 4) / 5 := by
  simp [average5, fzero, FloatOps.add, FloatOps.div, FloatOps.lit, FloatOps.ofInt]

/-- C6 (as amended): for every content of the two buffers, every write index in `[0, 5)` and
every pair `(t, h)`, five consecutive updates with `(t, h)` return, and the fifth returns for
each channel what lines 185–189 compute from a buffer that holds the value in all five slots:
`(((((0.0 + t) + t) + t) + t) + t) / 5` in the float arithmetic at hand (every `FloatOps`, so
also binary32).  In exact arithmetic this is `(t, h)`. -/
theorem smoother_saturation {F : Type} [FloatOps F] (s : State F)
    (hi : 0 ≤ s.readingIndex ∧ s.readingIndex < 5) (t h : F)
    (e : State ℚ) (he : 0 ≤ e.readingIndex ∧ e.readingIndex < 5) (tq hq : ℚ) :
    (∃ s5 avgs, smootherUpdates s (List.replicate 5 (t, h)) = some (s5, avgs) ∧
      avgs.get? 4 = some
        (FloatOps.div
          (FloatOps.add (FloatOps.add (FloatOps.add (FloatOps.add (FloatOps.add fzero t) t) t)
            t) t) (FloatOps.ofInt 5),
         FloatOps.div
          (FloatOps.add (FloatOps.add (FloatOps.add (FloatOps.add (FloatOps.add fzero h) h) h)
            h) h) (FloatOps.ofInt 5))) ∧
    (∃ e5 avgs, smootherUpdates e (List.replicate 5 (tq, hq)) = some (e5, avgs) ∧
      avgs.get? 4 = some (tq, hq)) := by
  constructor
  · refine ⟨_, _, smootherUpdates_eq _ s hi, ?_⟩
    simp only [List.replicate, averagesAfter, List.get?, afterUpdate,
      five_writes_fill _ _ hi, average5]
  · refine ⟨_, _, smootherUpdates_eq _ e he, ?_⟩
    simp only [List.replicate, averagesAfter, List.get?, afterUpdate,
      five_writes_fill _ _ he, exact_average5]
    refine congrArg some (Prod.ext ?_ ?_) <;> simp only <;> ring

theorem smoother_saturation_witness :
    (∃ s5 avgs, smootherUpdates (initState : State F32)
        (List.replicate 5 (FloatOps.lit 1502 2, FloatOps.lit 500 1)) = some (s5, avgs) ∧
      avgs.get? 4 = some
        (FloatOps.div
          (FloatOps.add (FloatOps.add (FloatOps.add (FloatOps.add (FloatOps.add fzero
            (FloatOps.lit 1502 2)) (FloatOps.lit 1502 2)) (FloatOps.lit 1502 2))
            (FloatOps.lit 1502 2)) (FloatOps.lit 1502 2)) (FloatOps.ofInt 5),
         FloatOps.div
          (FloatOps.add (FloatOps.add (FloatOps.add (FloatOps.add (FloatOps.add fzero
            (FloatOps.lit 500 1)) (FloatOps.lit 500 1)) (FloatOps.lit 500 1))
            (FloatOps.lit 500 1)) (FloatOps.lit 500 1)) (FloatOps.ofInt 5))) ∧
    (∃ e5 avgs, smootherUpdates (initState : State ℚ) (List.replicate 5 (1502 / 100, 50))
        = some (e5, avgs) ∧
      avgs.get? 4 = some (1502 / 100, 50)) :=
  smoother_saturation (initState : State F32) (by decide) (FloatOps.lit 1502 2)
    (FloatOps.lit 500 1) (initState : State ℚ) (by decide) (1502 / 100) 50

set_option maxRecDepth 100000 in
/-- C6 fails as stated in binary32: from the zero-initialised buffers with `readingIndex = 0`,
five updates with `t = 16777215.0f` (and `h = 50.0f`) return `16777214.0f` as the fifth
temperature average, and five updates with `t = 15.02f` (significand 15749612) return the
next binary32 number above it (significand 15749613). -/
theorem smoother_saturation_counterexample :
    (smootherUpdates (initState : State F32)
        (List.replicate 5 (FloatOps.ofInt 16777215, FloatOps.lit 500 1))).map
        (fun r => r.2.get? 4)
      = some (some (FloatOps.ofInt 16777214, FloatOps.lit 500 1)) ∧
    (FloatOps.ofInt 16777214 : F32) ≠ FloatOps.ofInt 16777215 ∧
    (FloatOps.lit 1502 2 : F32) = F32.fin false (15749612 * 2 ^ 129) ∧
    (smootherUpdates (initState : State F32)
        (List.replicate 5 (FloatOps.lit 1502 2, FloatOps.lit 500 1))).map
        (fun r => r.2.get? 4)
      = some (some (F32.fin false (15749613 * 2 ^ 129), FloatOps.lit 500 1)) := by
  decide

theorem bitLength_spec (fuel n : Nat) (h : n ≤ fuel) :
    n < 2 ^ bitLength fuel n ∧ (n ≠ 0 → 2 ^ (bitLength fuel n - 1) ≤ n) := by
  induction fuel generalizing n with
  | zero =>
    have : n = 0 := by omega
    subst this
    simp [bitLength]
  | succ f ih =>
    by_cases hn : n = 0
    · subst hn; simp [bitLength]
    · have h2 : n / 2 ≤ f := by omega
      obtain ⟨i1, i2⟩ := ih (n / 2) h2
      simp only [bitLength, hn, if_false, Nat.add_sub_cancel]
      constructor
      · rw [pow_succ]; omega
      · intro _
        by_cases hh : n / 2 = 0
        · have : n = 1 := by omega
          subst this
          have hz : bitLength f 0 = 0 := by cases f <;> simp [bitLength]
          simp [hz]
        · have i3 := i2 hh
          have hpos : bitLength f (n / 2) ≠ 0 := by
            intro h0
            rw [h0] at i1
            simp at i1
            exact hh i1
          have : bitLength f (n / 2) = (bitLength f (n / 2) - 1) + 1 := by omega
          rw [this, pow_succ]
          omega

theorem bitLength_eq (n k : Nat) (h1 : 2 ^ k ≤ n) (h2 : n < 2 ^ (k + 1)) :
    bitLength n n = k + 1 := by
  obtain ⟨i1, i2⟩ := bitLength_spec n n le_rfl
  have hn : n ≠ 0 := by
    have : 0 < 2 ^ k := Nat.two_pow_pos _
    omega
  have i3 := i2 hn
  have a1 : k < bitLength n n := by
    by_contra hc
    have : 2 ^ bitLength n n ≤ 2 ^ k := Nat.pow_le_pow_right (by decide) (by omega)
    omega
  have a2 : bitLength n n - 1 < k + 1 := by
    by_contra hc
    have : 2 ^ (k + 1) ≤ 2 ^ (bitLength n n - 1) := Nat.pow_le_pow_right (by decide) (by omega)
    omega
  omega

theorem bitLength_le (n p : Nat) (h : n < 2 ^ p) : bitLength n n ≤ p := by
  obtain ⟨_, i2⟩ := bitLength_spec n n le_rfl
  by_cases hn : n = 0
  · subst hn; cases p <;> simp [bitLength]
  · have i3 := i2 hn
    by_contra hc
    have : 2 ^ p ≤ 2 ^ (bitLength n n - 1) := Nat.pow_le_pow_right (by decide) (by omega)
    omega

theorem round_fix_small (p m : Nat) (h : m < 2 ^ p) : roundNearestEven p m 1 = m := by
  have hl := bitLength_le m p h
  have hs : bitLength m m - p = 0 := by omega
  simp [roundNearestEven, hs, Nat.mod_one]

theorem round_fix_scaled (p c e : Nat) (hp : 0 < p) (h1 : 2 ^ (p - 1) ≤ c) (h2 : c < 2 ^ p) :
    roundNearestEven p (c * 2 ^ e) 1 = c * 2 ^ e := by
  have hpe : 0 < 2 ^ e := Nat.two_pow_pos _
  have hb : bitLength (c * 2 ^ e) (c * 2 ^ e) = (p - 1 + e) + 1 := by
    apply bitLength_eq
    · rw [pow_add]; exact Nat.mul_le_mul_right _ h1
    · have : p - 1 + e + 1 = p + e := by omega
      rw [this, pow_add]
      exact Nat.mul_lt_mul_of_pos_right h2 hpe
  have hs : bitLength (c * 2 ^ e / 1) (c * 2 ^ e / 1) - p = e := by
    simp only [Nat.div_one, hb]; omega
  simp only [roundNearestEven, hs, Nat.one_mul, Nat.mul_mod_left, Nat.mul_zero,
    Nat.mul_div_cancel _ hpe]
  have : ¬ (0 > 2 ^ e ∨ 0 = 2 ^ e ∧ c % 2 = 1) := by omega
  simp only [this, if_false]


/-- What `roundNearestEven p n 1` returns: `n` itself when it has at most `p` digits, else a
`p`-digit significand (or `2^p`) times a power of two. -/
theorem round_shape (p n : Nat) (hp : 0 < p) :
    roundNearestEven p n 1 = n ∨
    ∃ c e, roundNearestEven p n 1 = c * 2 ^ e ∧ 2 ^ (p - 1) ≤ c ∧ c ≤ 2 ^ p := by
  by_cases hsmall : n < 2 ^ p
  · exact Or.inl (round_fix_small p n hsmall)
  · right
    obtain ⟨i1, i2⟩ := bitLength_spec n n le_rfl
    have hn : n ≠ 0 := by
      have : 0 < 2 ^ p := Nat.two_pow_pos _
      omega
    have i3 := i2 hn
    have hL : p < bitLength n n := by
      by_contra hc
      have : 2 ^ bitLength n n ≤ 2 ^ p := Nat.pow_le_pow_right (by decide) (by omega)
      omega
    have hsh : 0 < 2 ^ (bitLength n n - p) := Nat.two_pow_pos _
    have e1 : 2 ^ (bitLength n n - 1) = 2 ^ (p - 1) * 2 ^ (bitLength n n - p) := by
      rw [← pow_add]; congr 1; omega
    have e2 : 2 ^ bitLength n n = 2 ^ p * 2 ^ (bitLength n n - p) := by
      rw [← pow_add]; congr 1; omega
    have q1 : 2 ^ (p - 1) ≤ n / 2 ^ (bitLength n n - p) := by
      rw [Nat.le_div_iff_mul_le hsh, ← e1]; exact i3
    have q2 : n / 2 ^ (bitLength n n - p) < 2 ^ p := by
      rw [Nat.div_lt_iff_lt_mul hsh, ← e2]; exact i1
    simp only [roundNearestEven, Nat.div_one, Nat.one_mul]
    split_ifs
    · exact ⟨_, _, rfl, by omega, by omega⟩
    · exact ⟨_, _, rfl, q1, by omega⟩

theorem round_idem (p n : Nat) (hp : 0 < p) :
    roundNearestEven p (roundNearestEven p n 1) 1 = roundNearestEven p n 1 := by
  rcases round_shape p n hp with h | ⟨c, e, h, h1, h2⟩
  · rw [h, h]
  · rw [h]
    by_cases hc : c < 2 ^ p
    · exact round_fix_scaled p c e hp h1 hc
    · have hc2 : c = 2 ^ (p - 1) * 2 := by
        have : 2 ^ p = 2 ^ (p - 1) * 2 := by
          rw [← pow_succ]; congr 1; omega
        omega
      have : c * 2 ^ e = 2 ^ (p - 1) * 2 ^ (e + 1) := by
        rw [hc2, pow_succ]; ring
      rw [this]
      apply round_fix_scaled p _ _ hp le_rfl
      exact Nat.pow_lt_pow_right (by decide) (by omega)

theorem round_pos (p n : Nat) (hp : 0 < p) (hn : 0 < n) : 0 < roundNearestEven p n 1 := by
  rcases round_shape p n hp with h | ⟨c, e, h, h1, _⟩
  · rw [h]; exact hn
  · rw [h]
    have : 0 < 2 ^ (p - 1) := Nat.two_pow_pos _
    exact Nat.mul_pos (by omega) (Nat.two_pow_pos _)


namespace F32

theorem ofMag_eq_fin {sg : Bool} {mag : Nat} {a : Bool} {m : Nat}
    (h : ofMag sg mag = .fin a m) : sg = a ∧ mag = m ∧ mag < LIMIT := by
  unfold ofMag at h
  split_ifs at h with hl
  · injection h with h1 h2
    exact ⟨h1, h2, hl⟩

theorem signed_eq_zero {a : Bool} {m : Nat} (h : signed a m = 0) : m = 0 := by
  unfold signed at h
  split_ifs at h <;> omega

/-- Adding to a value other than `-0.0` never gives `-0.0`. -/
theorem add_ne_negZero (x y : F32) (hx : x ≠ .fin true 0) : add x y ≠ .fin true 0 := by
  intro h
  cases x with
  | nan => simp [add] at h
  | inf a => cases y <;> simp [add] at h <;> split_ifs at h
  | fin a m =>
    cases y with
    | nan => simp [add] at h
    | inf b => simp [add] at h
    | fin b n =>
      simp only [add] at h
      split_ifs at h with hs
      · injection h with h1 h2
        simp only [Bool.and_eq_true] at h1
        obtain ⟨ha, hb⟩ := h1
        subst ha; subst hb
        simp only [signed, if_true] at hs
        have : m = 0 := by omega
        subst this
        exact hx rfl
      · obtain ⟨-, h2, -⟩ := ofMag_eq_fin h
        have hpos : 0 < (signed a m + signed b n).natAbs := by omega
        have := round_pos 24 _ (by decide) hpos
        omega

/-- Adding `+0.0` to a sum whose left operand is not `-0.0` changes nothing: the sum is
already rounded. -/
theorem add_add_zero (x y : F32) (hx : x ≠ .fin true 0) :
    add (add x y) (.fin false 0) = add x y := by
  have hne := add_ne_negZero x y hx
  generalize hS : add x y = S at hne
  cases S with
  | nan => simp [add]
  | inf a => simp [add]
  | fin sg R =>
    by_cases hR : R = 0
    · subst hR
      have : sg = false := by
        cases sg
        · rfl
        · exact absurd rfl hne
      subst this
      simp [add, signed]
    · -- `R` is a rounded magnitude
      have hround : roundNearestEven 24 R 1 = R ∧ R < LIMIT := by
        cases x with
        | nan => simp [add] at hS
        | inf a => cases y <;> simp [add] at hS <;> split_ifs at hS
        | fin a m =>
          cases y with
          | nan => simp [add] at hS
          | inf b => simp [add] at hS
          | fin b n =>
            simp only [add] at hS
            split_ifs at hS with hs
            · injection hS with _ h2
              exact absurd h2.symm hR
            · obtain ⟨-, h2, h3⟩ := ofMag_eq_fin hS
              rw [← h2]
              exact ⟨round_idem 24 _ (by decide), h3⟩
      have hs : signed sg R + signed false 0 ≠ 0 := by
        cases sg <;> simp [signed] <;> omega
      have habs : (signed sg R + signed false 0).natAbs = R := by
        cases sg <;> simp [signed]
      have hsign : decide (signed sg R + signed false 0 < 0) = sg := by
        cases sg <;> simp [signed] <;> omega
      simp only [add, hs, if_false, habs, hsign, hround.1, ofMag, hround.2, if_true]

theorem fzero_eq : (fzero : F32) = .fin false 0 := by decide

theorem foldl_ne_negZero (ts : List F32) (acc : F32) (h : acc ≠ .fin true 0) :
    ts.foldl add acc ≠ .fin true 0 := by
  induction ts generalizing acc with
  | nil => exact h
  | cons t rest ih => exact ih _ (add_ne_negZero acc t h)

/-- A running total that started from `0.0` is unchanged by adding `0.0`. -/
theorem foldl_add_zero (ts : List F32) :
    FloatOps.add (ts.foldl FloatOps.add fzero) fzero = ts.foldl FloatOps.add (fzero : F32) := by
  show add (ts.foldl add fzero) fzero = ts.foldl add fzero
  rw [fzero_eq]
  induction ts using List.reverseRecOn with
  | nil => decide
  | append_singleton init last _ =>
    rw [List.foldl_append]
    exact add_add_zero _ last (foldl_ne_negZero init _ (by decide))

end F32


/-- Cold start in any float arithmetic in which adding `0.0` to a running total leaves it
unchanged. -/
theorem cold_start_generic {F : Type} [FloatOps F]
    (hz : ∀ ts : List F, FloatOps.add (runningTotal ts) fzero = runningTotal ts)
    (s : State F) (hs : Fresh s) (inputs : List (F × F)) (hlen : inputs.length ≤ 5) :
    ∃ s1 avgs, smootherUpdates s inputs = some (s1, avgs) ∧ avgs.length = inputs.length ∧
      ∀ k, k < inputs.length →
        avgs.get? k = some
          (FloatOps.div (runningTotal ((inputs.take (k + 1)).map Prod.fst)) (FloatOps.ofInt 5),
           FloatOps.div (runningTotal ((inputs.take (k + 1)).map Prod.snd)) (FloatOps.ofInt 5)) := by
  obtain ⟨ht, hh, hidx⟩ := hs
  refine ⟨_, _, smootherUpdates_eq inputs s (by omega), averagesAfter_length inputs s, ?_⟩
  intro k hk
  have h3 : (((3 : Fin 5) : Nat) : Int) = 3 := rfl
  have h4 : (((4 : Fin 5) : Nat) : Int) = 4 := rfl
  have z1 : ∀ a : F, FloatOps.add (FloatOps.add fzero a) fzero = FloatOps.add fzero a :=
    fun a => hz [a]
  have z2 : ∀ a b : F, FloatOps.add (FloatOps.add (FloatOps.add fzero a) b) fzero
      = FloatOps.add (FloatOps.add fzero a) b := fun a b => hz [a, b]
  have z3 : ∀ a b c : F,
      FloatOps.add (FloatOps.add (FloatOps.add (FloatOps.add fzero a) b) c) fzero
      = FloatOps.add (FloatOps.add (FloatOps.add fzero a) b) c := fun a b c => hz [a, b, c]
  have z4 : ∀ a b c d : F,
      FloatOps.add (FloatOps.add (FloatOps.add (FloatOps.add (FloatOps.add fzero a) b) c) d) fzero
      = FloatOps.add (FloatOps.add (FloatOps.add (FloatOps.add fzero a) b) c) d :=
    fun a b c d => hz [a, b, c, d]
  rcases inputs with _ | ⟨p1, _ | ⟨p2, _ | ⟨p3, _ | ⟨p4, _ | ⟨p5, _ | ⟨p6, rest⟩⟩⟩⟩⟩⟩
  · simp at hk
  · simp only [List.length_cons, List.length_nil] at hk
    interval_cases k
    simp [averagesAfter, afterUpdate, writeSlot, average5, runningTotal, ht, hh, hidx, h3, h4, z1]
  · simp only [List.length_cons, List.length_nil] at hk
    interval_cases k <;>
    simp [averagesAfter, afterUpdate, writeSlot, average5, runningTotal, ht, hh, hidx, h3, h4,
      z1, z2]
  · simp only [List.length_cons, List.length_nil] at hk
    interval_cases k <;>
    simp [averagesAfter, afterUpdate, writeSlot, average5, runningTotal, ht, hh, hidx, h3, h4,
      z1, z2, z3]
  · simp only [List.length_cons, List.length_nil] at hk
    interval_cases k <;>
    simp [averagesAfter, afterUpdate, writeSlot, average5, runningTotal, ht, hh, hidx, h3, h4,
      z1, z2, z3, z4]
  · simp only [List.length_cons, List.length_nil] at hk
    interval_cases k <;>
    simp [averagesAfter, afterUpdate, writeSlot, average5, runningTotal, ht, hh, hidx, h3, h4,
      z1, z2, z3, z4]
  · simp at hlen

theorem exact_foldl_add (ts : List ℚ) (a : ℚ) : ts.foldl FloatOps.add a = a + ts.sum := by
  induction ts generalizing a with
  | nil => simp
  | cons t rest ih =>
    rw [List.foldl_cons, List.sum_cons, ih]
    simp only [FloatOps.add]
    ring

theorem exact_runningTotal (ts : List ℚ) : runningTotal ts = ts.sum := by
  simp [runningTotal, exact_foldl_add, fzero, FloatOps.lit]

theorem exact_add_zero (ts : List ℚ) :
    FloatOps.add (runningTotal ts) fzero = runningTotal ts := by
  simp [FloatOps.add, fzero, FloatOps.lit]

set_option maxRecDepth 100000 in
/-- C7: from a fresh state (both buffers all `0.0`, `readingIndex = 0`), for every sequence of
at most 5 inputs, every update returns, and the `k`-th update returns the total of the first
`k` temperatures (humidities) divided by 5: the slots never written count as 0.  This holds
in exact arithmetic, where the total is the sum, and in binary32, where the total is the
running float total of the values added to `0.0` in order.  A single update with
`(20.0, 50.0)` returns `(4.0, 10.0)` in both. -/
theorem cold_start_bias
    (s : State ℚ) (hs : Fresh s) (inputs : List (ℚ × ℚ)) (hlen : inputs.length ≤ 5)
    (b : State F32) (hb : Fresh b) (inputs32 : List (F32 × F32)) (hlen32 : inputs32.length ≤ 5) :
    (∃ s1 avgs, smootherUpdates s inputs = some (s1, avgs) ∧ avgs.length = inputs.length ∧
      ∀ k, k < inputs.length →
        avgs.get? k = some (((inputs.take (k + 1)).map Prod.fst).sum / 5,
          ((inputs.take (k + 1)).map Prod.snd).sum / 5)) ∧
    (∃ b1 avgs, smootherUpdates b inputs32 = some (b1, avgs) ∧ avgs.length = inputs32.length ∧
      ∀ k, k < inputs32.length →
        avgs.get? k = some
          (FloatOps.div (runningTotal ((inputs32.take (k + 1)).map Prod.fst)) (FloatOps.ofInt 5),
           FloatOps.div (runningTotal ((inputs32.take (k + 1)).map Prod.snd))
             (FloatOps.ofInt 5))) ∧
    (smootherUpdates s [(20, 50)]).map (fun r => r.2) = some [(4, 10)] ∧
    (smootherUpdates b [(FloatOps.lit 200 1, FloatOps.lit 500 1)]).map (fun r => r.2)
      = some [(FloatOps.lit 40 1, FloatOps.lit 100 1)] := by
  refine ⟨?_, cold_start_generic F32.foldl_add_zero b hb inputs32 hlen32, ?_, ?_⟩
  · obtain ⟨s1, avgs, h1, h2, h3⟩ := cold_start_generic exact_add_zero s hs inputs hlen
    refine ⟨s1, avgs, h1, h2, ?_⟩
    intro k hk
    rw [h3 k hk]
    simp only [exact_runningTotal, FloatOps.div, FloatOps.ofInt]
    norm_num
  · obtain ⟨ht, hh, hidx⟩ := hs
    rw [smootherUpdates_eq _ s (by omega)]
    have h3 : (((3 : Fin 5) : Nat) : Int) = 3 := rfl
    have h4 : (((4 : Fin 5) : Nat) : Int) = 4 := rfl
    simp only [Option.map, averagesAfter, afterUpdate, writeSlot, exact_average5, ht, hh, hidx,
      fzero, FloatOps.lit]
    norm_num [h3, h4]
  · obtain ⟨ht, hh, hidx⟩ := hb
    rw [smootherUpdates_eq _ b (by omega)]
    simp only [Option.map, averagesAfter, afterUpdate, writeSlot, average5, ht, hh, hidx]
    decide

theorem fresh_initState {F : Type} [FloatOps F] : Fresh (initState : State F) := ⟨rfl, rfl, rfl⟩

theorem cold_start_bias_witness :
    (∃ s1 avgs, smootherUpdates (initState : State ℚ) [(20, 50), (22, 48)] = some (s1, avgs) ∧
      avgs.length = ([(20, 50), (22, 48)] : List (ℚ × ℚ)).length ∧
      ∀ k, k < ([(20, 50), (22, 48)] : List (ℚ × ℚ)).length →
        avgs.get? k = some
          (((([(20, 50), (22, 48)] : List (ℚ × ℚ)).take (k + 1)).map Prod.fst).sum / 5,
           ((([(20, 50), (22, 48)] : List (ℚ × ℚ)).take (k + 1)).map Prod.snd).sum / 5)) ∧
    (∃ b1 avgs, smootherUpdates (initState : State F32)
        [(FloatOps.lit 1502 2, FloatOps.lit 500 1)] = some (b1, avgs) ∧
      avgs.length = ([(FloatOps.lit 1502 2, FloatOps.lit 500 1)] : List (F32 × F32)).length ∧
      ∀ k, k < ([(FloatOps.lit 1502 2, FloatOps.lit 500 1)] : List (F32 × F32)).length →
        avgs.get? k = some
          (FloatOps.div (runningTotal
            ((([(FloatOps.lit 1502 2, FloatOps.lit 500 1)] : List (F32 × F32)).take
              (k + 1)).map Prod.fst)) (FloatOps.ofInt 5),
           FloatOps.div (runningTotal
            ((([(FloatOps.lit 1502 2, FloatOps.lit 500 1)] : List (F32 × F32)).take
              (k + 1)).map Prod.snd)) (FloatOps.ofInt 5))) ∧
    (smootherUpdates (initState : State ℚ) [(20, 50)]).map (fun r => r.2) = some [(4, 10)] ∧
    (smootherUpdates (initState : State F32)
        [(FloatOps.lit 200 1, FloatOps.lit 500 1)]).map (fun r => r.2)
      = some [(FloatOps.lit 40 1, FloatOps.lit 100 1)] :=
  cold_start_bias initState fresh_initState [(20, 50), (22, 48)] (by decide)
    initState fresh_initState [(FloatOps.lit 1502 2, FloatOps.lit 500 1)] (by decide)

set_option maxRecDepth 100000 in
/-- The increment at `INT_MAX`: the confirming transition leaves the counter at `INT_MIN` and
does not call `triggerVibration`. -/
theorem detectJump_at_int_max :
    (detectJump { (initState : State F32) with jumpCounter := INT_MAX, jumpDetected := true }
        501 (FloatOps.lit (-20) 1)).1.jumpCounter = INT_MIN ∧
    goalCount (detectJump
        { (initState : State F32) with jumpCounter := INT_MAX, jumpDetected := true }
        501 (FloatOps.lit (-20) 1)).2 = 0 := by
  decide

end JumpRope
